import Mathlib

/-!
Shallow embedding of `scripts/add_school.py` (the Canvascope domain-addition
logic) and verification of its specification.

Lines of a text file are modelled as `List Char` (Python `str`), a document
as `List (List Char)` (Python `readlines()` output: each line keeps its
trailing newline).  The regex character class `\s`, and `str.strip()`, are
modelled over the ASCII whitespace characters; the Unicode extras are
irrelevant to every statement below.  Python's `json` standard library
(`json.load` / `json.dump`) is external to the repository and is modelled by
abstract `parse` / `ser` parameters of the orchestrator.
-/

namespace Canvascope

/-- The whitespace characters of the regex class `\s` and of `str.strip()`
(ASCII part: space, tab, newline, carriage return, vertical tab, form feed). -/
def isSpace (c : Char) : Bool :=
  c == ' ' || c == '\t' || c == '\n' || c == '\r' || c == Char.ofNat 11 || c == Char.ofNat 12

/-- The single-quote character `'` (U+0027). -/
def quoteChar : Char := Char.ofNat 39

/-- Any character other than the single quote: the class `[^']` of the regex. -/
def notQuote (c : Char) : Bool := ! (c == quoteChar)

/-- The text `hostname === ` (subject and comparison operator). -/
def subjHead : List Char := ("hostname === ").toList

/-- The literal prefix `hostname === '` that the regex requires right after
the leading whitespace. -/
def subjPat : List Char := subjHead ++ [quoteChar]

/-- The disjunction operator `||`. -/
def orOp : List Char := ("||").toList

/-- `'<domain>'`: the quoted literal whose presence anywhere on a line makes
the patcher skip that line (`f"'{domain}'" in line`). -/
def quoted (domain : List Char) : List Char := quoteChar :: (domain ++ [quoteChar])

/-- Python `str.strip()` (ASCII whitespace): drop whitespace from both ends. -/
def stripChars (l : List Char) : List Char :=
  ((l.dropWhile isSpace).reverse.dropWhile isSpace).reverse

/-- The lazy group `(.*?)$` of the regex, applied to the rest of the line
after the closing quote: `.` does not match a newline and `$` matches at the
end of the string or just before a final newline, so the group matches the
remaining characters exactly when they contain no newline other than an
optional final one (which is excluded from the capture). -/
def tailMatch : List Char → Option (List Char)
  | [] => some []
  | c :: rest =>
    if c = '\n' then (if rest = [] then some [] else none)
    else (tailMatch rest).map (fun t => c :: t)

/-- From the part of the line following `hostname === '`, capture the quoted
literal (`[^']+'`) and the tail group.  Returns `none` when the literal is
empty or unterminated, or when the tail group cannot match. -/
def parseAfter (after : List Char) : Option (List Char × List Char) :=
  if after.takeWhile notQuote = [] then none
  else
    match after.dropWhile notQuote with
    | [] => none
    | c :: r2 =>
      if c = quoteChar then (tailMatch r2).map (fun t => (after.takeWhile notQuote, t))
      else none

/-- `re.match` of the pattern `^(\s*)(hostname === '[^']+')(.*?)$` on a line:
returns the three captured groups (indent, equality-literal part, tail). -/
def matchLine (l : List Char) : Option (List Char × List Char × List Char) :=
  if subjPat <+: l.dropWhile isSpace then
    match parseAfter ((l.dropWhile isSpace).drop subjPat.length) with
    | some (lit, t) => some (l.takeWhile isSpace, subjPat ++ lit ++ [quoteChar], t)
    | none => none
  else none

/-- The continuation line `f"{indent}{_match_part} ||\n"`. -/
def contLine (ind part : List Char) : List Char := ind ++ part ++ (" ||\n").toList

/-- The new terminal line `f"{indent}hostname === '{domain}'{tail}\n"`. -/
def entryLine (domain ind t : List Char) : List Char :=
  ind ++ subjPat ++ domain ++ [quoteChar] ++ t ++ ['\n']

/-- One iteration of the `while` loop of `add_domain_to_js`: the lines that
replace the current line in the output, and the number of changes recorded. -/
def procLine (domain l : List Char) : List (List Char) × Nat :=
  match matchLine l with
  | none => ([l], 0)
  | some (ind, part, t) =>
    if quoted domain <:+: l then ([l], 0)
    else if stripChars t ≠ [] ∧ stripChars t ≠ orOp then
      ([contLine ind part, entryLine domain ind t], 1)
    else ([l], 0)

/-- The Chain Patcher `add_domain_to_js` (pure core): scans the lines in
order and returns `(new_lines, changes)`. -/
def add_domain_to_js (domain : List Char) : List (List Char) → List (List Char) × Nat
  | [] => ([], 0)
  | l :: rest =>
    let p := procLine domain l
    let q := add_domain_to_js domain rest
    (p.1 ++ q.1, p.2 + q.2)

/-- A `content_scripts` entry of the manifest, as far as the patcher looks at
it: its optional `matches` list (`none` models an absent key). -/
structure ContentScript where
  matchesKey : Option (List (List Char))
deriving DecidableEq

/-- The manifest document, as far as the patcher looks at it: its optional
`host_permissions` list and optional `content_scripts` array (`none` models
an absent key). -/
structure Manifest where
  host_permissions : Option (List (List Char))
  content_scripts : Option (List ContentScript)
deriving DecidableEq

/-- The one error kind the patcher can raise: Python `KeyError`, from
`data["host_permissions"].append` or `cs["matches"].append` on a missing key. -/
inductive PErr
  | keyError
deriving DecidableEq

/-- The body of the `for cs in data.get("content_scripts", [])` loop of
`update_manifest`: if the pattern is not in `cs.get("matches", [])`, run
`cs["matches"].append(pattern)` — which raises `KeyError` when the key is
absent. -/
def updCS (p : List Char) (cs : ContentScript) : Except PErr ContentScript :=
  if p ∈ cs.matchesKey.getD [] then Except.ok cs
  else
    match cs.matchesKey with
    | some l => Except.ok ⟨some (l ++ [p])⟩
    | none => Except.error PErr.keyError

/-- The Structured-Document Field Patcher `update_manifest` (in-memory part):
appends the pattern to `host_permissions` and to each `content_scripts`
entry's `matches` when absent, then unconditionally dumps the document back
to the file.  The returned `Bool` records that the write of the file took
place (the source opens the file for writing and dumps on every successful
run, changed or not). -/
def update_manifest (m : Manifest) (p : List Char) : Except PErr (Manifest × Bool) :=
  match (if p ∈ m.host_permissions.getD [] then Except.ok m.host_permissions
         else
           match m.host_permissions with
           | some l => Except.ok (some (l ++ [p]))
           | none => Except.error PErr.keyError : Except PErr (Option (List (List Char)))) with
  | Except.error e => Except.error e
  | Except.ok hp =>
    match (m.content_scripts.getD []).mapM (updCS p) with
    | Except.error e => Except.error e
    | Except.ok css => Except.ok (⟨hp, m.content_scripts.map (fun _ => css)⟩, true)

/-- Python `readlines()`: split a file's text into lines, each keeping its
trailing newline; a final fragment without a newline is kept as a line. -/
def splitLinesAux : List Char → List Char → List (List Char)
  | [], acc => if acc = [] then [] else [acc.reverse]
  | c :: rest, acc =>
    if c = '\n' then (acc.reverse ++ ['\n']) :: splitLinesAux rest []
    else splitLinesAux rest (c :: acc)

/-- Python `readlines()` on a whole file text. -/
def splitLines (s : List Char) : List (List Char) := splitLinesAux s []

/-- Python `writelines` / concatenation of the lines back into a file text. -/
def joinAll : List (List Char) → List Char
  | [] => []
  | l :: rest => l ++ joinAll rest

/-- Python `str.lower()` (ASCII part, as applied to the domain argument). -/
def pyLower (s : List Char) : List Char := s.map Char.toLower

/-- The derived pattern `f"*://{domain}/*"`. -/
def mkPattern (domain : List Char) : List Char :=
  ("*://").toList ++ domain ++ ("/*").toList

/-- File-level `add_domain_to_js`: `readlines`, transform, and write the new
lines back only when `changes > 0`.  Returns `(changes, final file text)`. -/
def addDomainFile (domain text : List Char) : Nat × List Char :=
  let r := add_domain_to_js domain (splitLines text)
  (r.2, if r.2 > 0 then joinAll r.1 else text)

/-- The four files of the project directory; `none` models an absent file. -/
structure ProjFiles where
  manifestText : Option (List Char)
  contentJs : Option (List Char)
  backgroundJs : Option (List Char)
  popupJs : Option (List Char)
deriving DecidableEq

/-- The orchestrator `main`, as a pure function from the argument vector and
the file store to the process exit code and the final file store.
`parse` and `ser` stand for the Python standard library `json.load` and
`json.dump(..., indent=2)`; an uncaught exception (malformed manifest or
`KeyError`) terminates the process with a nonzero status before any write.
Exit codes: `1` usage error, missing file or uncaught exception; `2` domain
already present (checked as a plain substring of the raw manifest text,
before anything is written); `0` success. -/
def main_run (parse : List Char → Option Manifest) (ser : Manifest → List Char)
    (argv : List (List Char)) (fs : ProjFiles) : Nat × ProjFiles :=
  match argv with
  | [_, _, domainArg] =>
    (match fs.manifestText, fs.contentJs, fs.backgroundJs, fs.popupJs with
     | some mtext, some ctext, some btext, some ptext =>
       if pyLower domainArg <:+: mtext then (2, fs)
       else
         (match parse mtext with
          | none => (1, fs)
          | some m =>
            match update_manifest m (mkPattern (pyLower domainArg)) with
            | Except.error _ => (1, fs)
            | Except.ok (m2, _) =>
              let rc := addDomainFile (pyLower domainArg) ctext
              let rb := addDomainFile (pyLower domainArg) btext
              let rp := addDomainFile (pyLower domainArg) ptext
              (0, ⟨some (ser m2 ++ ['\n']), some rc.2, some rb.2, some rp.2⟩))
     | _, _, _, _ => (1, fs))
  | _ => (1, fs)

/-- The per-line case analysis of the Chain Patcher, written out as the
specification describes it: an unrecognized line is kept; a recognized line
carrying the quoted value, or whose trimmed tail is empty or solely `||`, is
kept; a recognized terminal line is replaced by the continuation line and the
new terminal line. -/
def lineSeg (domain l : List Char) : List (List Char) :=
  match matchLine l with
  | none => [l]
  | some (ind, part, t) =>
    if quoted domain <:+: l then [l]
    else if stripChars t = [] ∨ stripChars t = orOp then [l]
    else [contLine ind part, entryLine domain ind t]

/-- Whether the Chain Patcher leaves a line untouched: not recognized, or
recognized but skipped (value already present, or tail empty or solely `||`). -/
def untouchedB (domain l : List Char) : Bool :=
  match matchLine l with
  | none => true
  | some (_, _, t) =>
    decide (quoted domain <:+: l) || decide (stripChars t = []) || decide (stripChars t = orOp)

/-- Concatenation of the per-line segments over a whole document. -/
def concatSegs (domain : List Char) : List (List Char) → List (List Char)
  | [] => []
  | l :: rest => lineSeg domain l ++ concatSegs domain rest

/-- The value `b.edu` of the specification's scenario. -/
def exDomain : List Char := ("b.edu").toList

/-- The scenario line as the specification writes it: ` if (hostname === 'a.edu') {\n`. -/
def exIfLine : List Char :=
  ' ' :: (("if (").toList ++ subjPat ++ ("a.edu").toList ++ [quoteChar] ++ (") \x7b").toList ++ ['\n'])

/-- The terminal line ` hostname === 'a.edu') {\n` (the scenario line without
the `if (` prefix). -/
def exTermLine : List Char :=
  ' ' :: (subjPat ++ ("a.edu").toList ++ [quoteChar] ++ (") \x7b").toList ++ ['\n'])

/-- The continuation line ` hostname === 'a.edu' ||\n` of the scenario. -/
def exContOut : List Char :=
  ' ' :: (subjPat ++ ("a.edu").toList ++ [quoteChar] ++ (" ||").toList ++ ['\n'])

/-- The inserted terminal line ` hostname === 'b.edu') {\n` of the scenario. -/
def exEntryOut : List Char :=
  ' ' :: (subjPat ++ ("b.edu").toList ++ [quoteChar] ++ (") \x7b").toList ++ ['\n'])

/-- The captured equality-literal part `hostname === 'a.edu'` of `exTermLine`. -/
def exPart : List Char := subjPat ++ ("a.edu").toList ++ [quoteChar]

/-- The captured tail `) {` of `exTermLine`. -/
def exTail : List Char := (") \x7b").toList

/-- A mid-chain line `  hostname === 'x.edu' ||\n`. -/
def exMidLine : List Char :=
  ' ' :: ' ' :: (subjPat ++ ("x.edu").toList ++ [quoteChar] ++ (" ||").toList ++ ['\n'])

/-- The pattern string `*://canvas.asu.edu/*`. -/
def exCanvasPat : List Char := ("*://canvas.asu.edu/*").toList

/-- A raw manifest file text registering only `canvas.asu.edu`. -/
def exMan9Text : List Char :=
  ("\x7b \"host_permissions\": [\"*://canvas.asu.edu/*\"], \"content_scripts\": [\x7b \"matches\": [\"*://canvas.asu.edu/*\"] \x7d] \x7d\n").toList

/-- The structured document that `exMan9Text` denotes. -/
def exMan9 : Manifest := ⟨some [exCanvasPat], some [⟨some [exCanvasPat]⟩]⟩

/-- A project file store whose manifest is `exMan9Text`. -/
def exFs9 : ProjFiles := ⟨some exMan9Text, some [], some [], some []⟩

/-! ### Helper lemmas -/

theorem takeWhile_app (p : Char → Bool) (xs : List Char) (y : Char) (ys : List Char)
    (hx : ∀ c ∈ xs, p c = true) (hy : p y = false) :
    (xs ++ y :: ys).takeWhile p = xs := by
  induction xs with
  | nil => simp [List.takeWhile_cons, hy]
  | cons a l ih =>
    have ha : p a = true := hx a (by simp)
    have ih2 := ih (fun c hc => hx c (by simp [hc]))
    simp only [List.cons_append, List.takeWhile_cons, ha, if_true, ih2]

theorem dropWhile_app (p : Char → Bool) (xs : List Char) (y : Char) (ys : List Char)
    (hx : ∀ c ∈ xs, p c = true) (hy : p y = false) :
    (xs ++ y :: ys).dropWhile p = y :: ys := by
  induction xs with
  | nil => simp [List.dropWhile_cons, hy]
  | cons a l ih =>
    have ha : p a = true := hx a (by simp)
    have ih2 := ih (fun c hc => hx c (by simp [hc]))
    simp only [List.cons_append, List.dropWhile_cons, ha, if_true, ih2]

theorem tailMatch_inv : ∀ (r t : List Char), tailMatch r = some t →
    (r = t ∨ r = t ++ ['\n']) ∧ '\n' ∉ t := by
  intro r
  induction r with
  | nil =>
    intro t h
    simp only [tailMatch, Option.some.injEq] at h
    subst h
    simp
  | cons c rest ih =>
    intro t h
    by_cases hc : c = '\n'
    · subst hc
      simp only [tailMatch, if_true] at h
      by_cases hr : rest = []
      · rw [if_pos hr] at h
        simp only [Option.some.injEq] at h
        subst h
        subst hr
        simp
      · rw [if_neg hr] at h
        simp at h
    · simp only [tailMatch, hc, if_false, Option.map_eq_some'] at h
      obtain ⟨t0, ht0, hct⟩ := h
      obtain ⟨hr, hn⟩ := ih t0 ht0
      subst hct
      refine ⟨?_, ?_⟩
      · rcases hr with hr | hr
        · left; rw [hr]
        · right; rw [hr]; simp
      · intro hmem
        rcases List.mem_cons.mp hmem with hcc | hcc
        · exact hc hcc.symm
        · exact hn hcc

theorem parseAfter_build (lit r2 t : List Char) (hlit : lit ≠ [])
    (hq : ∀ c ∈ lit, notQuote c = true) (ht : tailMatch r2 = some t) :
    parseAfter (lit ++ quoteChar :: r2) = some (lit, t) := by
  have h1 : (lit ++ quoteChar :: r2).takeWhile notQuote = lit :=
    takeWhile_app _ _ _ _ hq (by decide)
  have h2 : (lit ++ quoteChar :: r2).dropWhile notQuote = quoteChar :: r2 :=
    dropWhile_app _ _ _ _ hq (by decide)
  unfold parseAfter
  rw [h1, h2, if_neg hlit]
  simp [ht]

theorem parseAfter_inv {after lit t : List Char} (h : parseAfter after = some (lit, t)) :
    lit ≠ [] ∧ (∀ c ∈ lit, notQuote c = true) ∧
    ∃ r2, after = lit ++ quoteChar :: r2 ∧ tailMatch r2 = some t := by
  unfold parseAfter at h
  split at h
  · simp at h
  next h0 =>
    split at h
    next => simp at h
    next c r2 hd =>
      split at h
      next hc =>
        rw [Option.map_eq_some'] at h
        obtain ⟨t0, ht0, hpair⟩ := h
        simp only [Prod.mk.injEq] at hpair
        obtain ⟨hl, htt⟩ := hpair
        subst hl
        subst htt
        refine ⟨h0, fun c hc2 => List.mem_takeWhile_imp hc2, r2, ?_, ht0⟩
        subst hc
        conv_lhs => rw [← List.takeWhile_append_dropWhile notQuote after]
        rw [hd]
      next => simp at h

theorem spaces_split (ind rest : List Char) (hind : ∀ c ∈ ind, isSpace c = true) :
    (ind ++ subjPat ++ rest).takeWhile isSpace = ind ∧
    (ind ++ subjPat ++ rest).dropWhile isSpace = subjPat ++ rest := by
  have hhead : subjPat = 'h' :: (("ostname === ").toList ++ [quoteChar]) := by decide
  have hshape : ind ++ subjPat ++ rest =
      ind ++ 'h' :: ((("ostname === ").toList ++ [quoteChar]) ++ rest) := by
    rw [List.append_assoc, hhead, List.cons_append]
  have hfalse : isSpace 'h' = false := by decide
  constructor
  · rw [hshape]
    exact takeWhile_app _ _ _ _ hind hfalse
  · rw [hshape, dropWhile_app _ _ _ _ hind hfalse, ← List.cons_append, ← hhead]

theorem matchLine_build (ind lit r2 t : List Char)
    (hind : ∀ c ∈ ind, isSpace c = true) (hlit : lit ≠ [])
    (hq : ∀ c ∈ lit, notQuote c = true) (ht : tailMatch r2 = some t) :
    matchLine (ind ++ subjPat ++ (lit ++ quoteChar :: r2)) =
      some (ind, subjPat ++ lit ++ [quoteChar], t) := by
  obtain ⟨h1, h2⟩ := spaces_split ind (lit ++ quoteChar :: r2) hind
  unfold matchLine
  rw [h1, h2, if_pos (List.prefix_append _ _), List.drop_left,
    parseAfter_build lit r2 t hlit hq ht]

theorem matchLine_inv {l ind part t : List Char}
    (h : matchLine l = some (ind, part, t)) :
    ind = l.takeWhile isSpace ∧
    ∃ lit r2, part = subjPat ++ lit ++ [quoteChar] ∧ lit ≠ [] ∧
      (∀ c ∈ lit, notQuote c = true) ∧
      l = ind ++ subjPat ++ (lit ++ quoteChar :: r2) ∧ tailMatch r2 = some t := by
  unfold matchLine at h
  split at h
  next hp =>
    split at h
    next lit0 t0 hpa =>
      obtain ⟨hne, hlq, r2, hafter, htm⟩ := parseAfter_inv hpa
      simp only [Option.some.injEq, Prod.mk.injEq] at h
      obtain ⟨h1, h2, h3⟩ := h
      obtain ⟨s, hs⟩ := hp
      have hsval : s = lit0 ++ quoteChar :: r2 := by
        rw [← hafter, ← hs, List.drop_left]
      refine ⟨h1.symm, lit0, r2, h2.symm, hne, hlq, ?_, h3 ▸ htm⟩
      conv_lhs => rw [← List.takeWhile_append_dropWhile isSpace l]
      rw [← hs, hsval, h1, List.append_assoc]
    next => simp at h
  next => simp at h

theorem procLine_cases (domain l : List Char) :
    procLine domain l = ([l], 0) ∨
    ∃ ind part t, matchLine l = some (ind, part, t) ∧ ¬ quoted domain <:+: l ∧
      stripChars t ≠ [] ∧ stripChars t ≠ orOp ∧
      procLine domain l = ([contLine ind part, entryLine domain ind t], 1) := by
  rcases hm : matchLine l with _ | ⟨ind, part, t⟩
  · left; simp [procLine, hm]
  · by_cases hq : quoted domain <:+: l
    · left; simp [procLine, hm, hq]
    · by_cases h1 : stripChars t = []
      · left; simp [procLine, hm, hq, h1]
      · by_cases h2 : stripChars t = orOp
        · left; simp [procLine, hm, hq, h1, h2]
        · exact Or.inr ⟨ind, part, t, rfl, hq, h1, h2, by simp [procLine, hm, hq, h1, h2]⟩

theorem procLine_stable (domain l l' : List Char) (hmem : l' ∈ (procLine domain l).1) :
    procLine domain l' = ([l'], 0) := by
  rcases procLine_cases domain l with h | ⟨ind, part, t, hm, hq, h1, h2, h⟩
  · rw [h] at hmem
    simp only [List.mem_singleton] at hmem
    subst hmem
    exact h
  · rw [h] at hmem
    simp only [List.mem_cons, List.mem_singleton, List.not_mem_nil, or_false] at hmem
    rcases hmem with rfl | rfl
    · obtain ⟨hind, lit, r2, hpart, hlit, hlq, hdecomp, htm⟩ := matchLine_inv hm
      have hindsp : ∀ c ∈ ind, isSpace c = true := by
        rw [hind]; exact fun c hc => List.mem_takeWhile_imp hc
      have hcont : contLine ind part =
          ind ++ subjPat ++ (lit ++ quoteChar :: ((" ||\n").toList)) := by
        rw [contLine, hpart]
        simp [List.append_assoc]
      have hmt : tailMatch ((" ||\n").toList) = some ((" ||").toList) := by decide
      have hml : matchLine (contLine ind part) =
          some (ind, subjPat ++ lit ++ [quoteChar], (" ||").toList) := by
        rw [hcont]
        exact matchLine_build ind lit _ _ hindsp hlit hlq hmt
      rw [← hpart] at hml
      by_cases hq2 : quoted domain <:+: contLine ind part
      · simp [procLine, hml, hq2]
      · simp only [procLine, hml]
        rw [if_neg hq2,
          if_neg (by decide : ¬(stripChars ((" ||").toList) ≠ [] ∧ stripChars ((" ||").toList) ≠ orOp))]
    · have hinf : quoted domain <:+: entryLine domain ind t := by
        refine ⟨ind ++ subjHead, t ++ ['\n'], ?_⟩
        simp [entryLine, quoted, subjPat, List.append_assoc]
      rcases hml : matchLine (entryLine domain ind t) with _ | ⟨i2, p2, t2⟩
      · simp [procLine, hml]
      · simp [procLine, hml, hinf]

theorem add_keep (domain : List Char) (doc : List (List Char))
    (h : ∀ l ∈ doc, procLine domain l = ([l], 0)) :
    add_domain_to_js domain doc = (doc, 0) := by
  induction doc with
  | nil => rfl
  | cons l rest ih =>
    have h1 := h l (by simp)
    have h2 := ih (fun x hx => h x (by simp [hx]))
    simp [add_domain_to_js, h1, h2]

theorem add_mem (domain : List Char) (doc : List (List Char)) (l' : List Char)
    (h : l' ∈ (add_domain_to_js domain doc).1) :
    ∃ l ∈ doc, l' ∈ (procLine domain l).1 := by
  induction doc with
  | nil => simp [add_domain_to_js] at h
  | cons l rest ih =>
    simp only [add_domain_to_js, List.mem_append] at h
    rcases h with h | h
    · exact ⟨l, by simp, h⟩
    · obtain ⟨x, hx, hmem⟩ := ih h
      exact ⟨x, by simp [hx], hmem⟩

theorem procLine_len (domain l : List Char) :
    (procLine domain l).1.length = 1 + (procLine domain l).2 := by
  rcases procLine_cases domain l with h | ⟨_, _, _, _, _, _, _, h⟩ <;> rw [h] <;> rfl

theorem add_len (domain : List Char) (doc : List (List Char)) :
    (add_domain_to_js domain doc).1.length = doc.length + (add_domain_to_js domain doc).2 := by
  induction doc with
  | nil => rfl
  | cons l rest ih =>
    have hps1 : (add_domain_to_js domain (l :: rest)).1 =
        (procLine domain l).1 ++ (add_domain_to_js domain rest).1 := rfl
    have hps2 : (add_domain_to_js domain (l :: rest)).2 =
        (procLine domain l).2 + (add_domain_to_js domain rest).2 := rfl
    rw [hps1, hps2, List.length_append, procLine_len domain l, ih]
    simp [List.length_cons]
    omega

theorem add_changes_zero (domain : List Char) (doc : List (List Char))
    (h : (add_domain_to_js domain doc).2 = 0) :
    (add_domain_to_js domain doc).1 = doc := by
  induction doc with
  | nil => rfl
  | cons l rest ih =>
    have hps1 : (add_domain_to_js domain (l :: rest)).1 =
        (procLine domain l).1 ++ (add_domain_to_js domain rest).1 := rfl
    have hps2 : (add_domain_to_js domain (l :: rest)).2 =
        (procLine domain l).2 + (add_domain_to_js domain rest).2 := rfl
    rw [hps2] at h
    have h2 : (add_domain_to_js domain rest).2 = 0 := by omega
    rcases procLine_cases domain l with hp | ⟨_, _, _, _, _, _, _, hp⟩
    · rw [hps1, hp, ih h2]
      rfl
    · rw [hp] at h
      simp at h

theorem procLine_seg (domain l : List Char) :
    (procLine domain l).1 = lineSeg domain l := by
  rcases hm : matchLine l with _ | ⟨ind, part, t⟩
  · simp [procLine, lineSeg, hm]
  · by_cases hq : quoted domain <:+: l
    · simp [procLine, lineSeg, hm, hq]
    · by_cases h1 : stripChars t = []
      · simp [procLine, lineSeg, hm, hq, h1]
      · by_cases h2 : stripChars t = orOp
        · simp [procLine, lineSeg, hm, hq, h1, h2]
        · simp [procLine, lineSeg, hm, hq, h1, h2]

theorem seg_untouched (domain l : List Char) (h : untouchedB domain l = true) :
    lineSeg domain l = [l] := by
  rcases hm : matchLine l with _ | ⟨ind, part, t⟩
  · simp [lineSeg, hm]
  · rw [untouchedB, hm] at h
    simp only [Bool.or_eq_true, decide_eq_true_eq] at h
    rcases h with (h | h) | h
    · simp [lineSeg, hm, h]
    · simp [lineSeg, hm, h]
    · simp [lineSeg, hm, h]

theorem filter_sublist_add (domain : List Char) (doc : List (List Char)) :
    (doc.filter (untouchedB domain)).Sublist (add_domain_to_js domain doc).1 := by
  induction doc with
  | nil => simp [add_domain_to_js]
  | cons l rest ih =>
    have hps : (add_domain_to_js domain (l :: rest)).1 =
        (procLine domain l).1 ++ (add_domain_to_js domain rest).1 := rfl
    rw [hps]
    by_cases hu : untouchedB domain l
    · have hl : (procLine domain l).1 = [l] := by
        rw [procLine_seg]
        exact seg_untouched domain l hu
      rw [hl, List.filter_cons_of_pos hu]
      exact ih.cons₂ l
    · rw [List.filter_cons_of_neg (by simp [hu])]
      exact ih.trans (List.sublist_append_right _ _)

theorem add_eq_concatSegs (domain : List Char) (doc : List (List Char)) :
    (add_domain_to_js domain doc).1 = concatSegs domain doc := by
  induction doc with
  | nil => rfl
  | cons l rest ih =>
    have hps : (add_domain_to_js domain (l :: rest)).1 =
        (procLine domain l).1 ++ (add_domain_to_js domain rest).1 := rfl
    rw [hps, concatSegs, procLine_seg, ih]

theorem main_run_exit2 (parse : List Char → Option Manifest) (ser : Manifest → List Char)
    (a0 a1 darg mtext ct bt pt : List Char) (hin : pyLower darg <:+: mtext) :
    main_run parse ser [a0, a1, darg] ⟨some mtext, some ct, some bt, some pt⟩ =
      (2, ⟨some mtext, some ct, some bt, some pt⟩) := by
  simp [main_run, hin]

/-! ### The claims -/

/-- C1: for every document and every non-empty value, applying the Chain
Patcher a second time with the same value returns the first run's output
unchanged together with a change count of 0. -/
theorem C1_chain_patcher_idempotent (domain : List Char) (doc : List (List Char))
    (_hne : domain ≠ []) :
    add_domain_to_js domain (add_domain_to_js domain doc).1 =
      ((add_domain_to_js domain doc).1, 0) := by
  apply add_keep
  intro l' hl'
  obtain ⟨l, _, hmem⟩ := add_mem domain doc l' hl'
  exact procLine_stable domain l l' hmem

/-- Witness for C1 at the scenario document and value `b.edu`. -/
theorem C1_witness :
    add_domain_to_js exDomain (add_domain_to_js exDomain [exTermLine]).1 =
      ((add_domain_to_js exDomain [exTermLine]).1, 0) :=
  C1_chain_patcher_idempotent exDomain [exTermLine] (by decide)

/-- C2 (counterexample): on the document `[" if (hostname === 'a.edu') {\n"]`
with value `b.edu`, the Chain Patcher does NOT produce the claimed output
`[" hostname === 'a.edu' ||\n", " hostname === 'b.edu') {\n"]` with change
count 1 — the recognizer is anchored and the `if (` prefix prevents a match. -/
theorem C2_counterexample :
    add_domain_to_js exDomain [exIfLine] ≠ ([exContOut, exEntryOut], 1) := by decide

/-- C2 (amended): the Chain Patcher leaves `[" if (hostname === 'a.edu') {\n"]`
unchanged with change count 0, because a recognized line must begin with
`hostname === '` right after its leading whitespace; on the document
`[" hostname === 'a.edu') {\n"]` (the same terminal line without the `if (`
prefix) it produces exactly the claimed output with change count 1. -/
theorem C2_amended_scenario :
    add_domain_to_js exDomain [exIfLine] = ([exIfLine], 0) ∧
    add_domain_to_js exDomain [exTermLine] = ([exContOut, exEntryOut], 1) :=
  ⟨by decide, by decide⟩

/-- C3: every line the Chain Patcher rewrites as a terminal is replaced by
exactly two lines — the continuation line `indent + matched part + " ||" +
newline` and the new terminal line `indent + "hostname === '" + value + "'" +
tail + newline` — where `indent` is the original line's leading whitespace
and `tail` is the original line's trailing syntax (the original line is
exactly `indent + part + tail`, up to its optional final newline). -/
theorem C3_terminal_rewrite (domain l ind part t : List Char)
    (hm : matchLine l = some (ind, part, t))
    (hq : ¬ quoted domain <:+: l)
    (h1 : stripChars t ≠ []) (h2 : stripChars t ≠ orOp) :
    procLine domain l =
      ([ind ++ part ++ (" ||\n").toList,
        ind ++ subjPat ++ domain ++ [quoteChar] ++ t ++ ['\n']], 1) ∧
    ind = l.takeWhile isSpace ∧
    (l = ind ++ part ++ t ∨ l = ind ++ part ++ (t ++ ['\n'])) := by
  obtain ⟨hind, lit, r2, hpart, hlit, hlq, hdecomp, htm⟩ := matchLine_inv hm
  refine ⟨?_, hind, ?_⟩
  · simp [procLine, hm, hq, h1, h2, contLine, entryLine]
  · obtain ⟨hr, _⟩ := tailMatch_inv r2 t htm
    rcases hr with hr | hr
    · left
      rw [hdecomp, hpart, hr]
      simp [List.append_assoc]
    · right
      rw [hdecomp, hpart, hr]
      simp [List.append_assoc]

/-- Witness for C3 at the scenario terminal line and value `b.edu`. -/
theorem C3_witness :
    procLine exDomain exTermLine =
      ([[' '] ++ exPart ++ (" ||\n").toList,
        [' '] ++ subjPat ++ exDomain ++ [quoteChar] ++ exTail ++ ['\n']], 1) ∧
    [' '] = exTermLine.takeWhile isSpace ∧
    (exTermLine = [' '] ++ exPart ++ exTail ∨
      exTermLine = [' '] ++ exPart ++ (exTail ++ ['\n'])) :=
  C3_terminal_rewrite exDomain exTermLine [' '] exPart exTail
    (by decide) (by decide) (by decide) (by decide)

/-- C4: a recognized line whose trimmed tail is empty or exactly `||` is left
unchanged (with no change counted), whatever the value is. -/
theorem C4_nonterminal_never_rewritten (domain l ind part t : List Char)
    (hm : matchLine l = some (ind, part, t))
    (ht : stripChars t = [] ∨ stripChars t = orOp) :
    procLine domain l = ([l], 0) := by
  rcases procLine_cases domain l with h | ⟨i2, p2, t2, hm2, hq2, h1, h2, hp⟩
  · exact h
  · rw [hm] at hm2
    simp only [Option.some.injEq, Prod.mk.injEq] at hm2
    obtain ⟨he1, he2, he3⟩ := hm2
    subst he3
    rcases ht with ht | ht
    · exact absurd ht h1
    · exact absurd ht h2

/-- Witness for C4 at a mid-chain line whose tail is ` ||`, with a value not
present on the line. -/
theorem C4_witness : procLine exDomain exMidLine = ([exMidLine], 0) :=
  C4_nonterminal_never_rewritten exDomain exMidLine ([' ', ' '])
    (subjPat ++ ("x.edu").toList ++ [quoteChar]) ((" ||").toList)
    (by decide) (Or.inr (by decide))

/-- C5: the output document's line count equals the input's line count plus
the returned change count. -/
theorem C5_structural_growth (domain : List Char) (doc : List (List Char)) :
    (add_domain_to_js domain doc).1.length =
      doc.length + (add_domain_to_js domain doc).2 :=
  add_len domain doc

/-- Witness for C5 on a two-line document. -/
theorem C5_witness :
    (add_domain_to_js exDomain [exTermLine, exMidLine]).1.length =
      ([exTermLine, exMidLine] : List (List Char)).length +
        (add_domain_to_js exDomain [exTermLine, exMidLine]).2 :=
  C5_structural_growth exDomain [exTermLine, exMidLine]

/-- C6 (code-bug evidence): when `host_permissions` is absent, or a
`content_scripts` entry lacks `matches`, `update_manifest` raises `KeyError`
(it appends through `data["host_permissions"]` / `cs["matches"]` after having
read the missing key with a `.get(..., [])` default) instead of treating the
missing field as an empty list as the specification states. -/
theorem C6_missing_fields_raise_keyerror :
    update_manifest ⟨none, none⟩ (mkPattern (("a.edu").toList)) =
      Except.error PErr.keyError ∧
    update_manifest ⟨some [], some [⟨none⟩]⟩ (mkPattern (("a.edu").toList)) =
      Except.error PErr.keyError :=
  ⟨rfl, rfl⟩

/-- C7: when the (lower-cased) value occurs in the raw manifest text and all
four files exist, the orchestrator exits with code 2 and the file store is
returned unchanged — nothing is written. -/
theorem C7_already_present_exits_2 (parse : List Char → Option Manifest)
    (ser : Manifest → List Char) (a0 a1 darg mtext ct bt pt : List Char)
    (hin : pyLower darg <:+: mtext) :
    main_run parse ser [a0, a1, darg] ⟨some mtext, some ct, some bt, some pt⟩ =
      (2, ⟨some mtext, some ct, some bt, some pt⟩) :=
  main_run_exit2 parse ser a0 a1 darg mtext ct bt pt hin

/-- Witness for C7: a manifest text containing `'b.edu'`, value `b.edu`. -/
theorem C7_witness :
    main_run (fun _ => none) (fun _ => [])
        [("p").toList, ("d").toList, ("b.edu").toList]
        ⟨some (quoted (("b.edu").toList)), some [], some [], some []⟩ =
      (2, ⟨some (quoted (("b.edu").toList)), some [], some [], some []⟩) :=
  C7_already_present_exits_2 (fun _ => none) (fun _ => []) _ _ _ _ _ _ _ (by decide)

/-- C8 (amended): a chain-based document is written back exactly when the
patcher changed it (a positive change count occurs if and only if the output
differs from the input, and only then does the write happen); the structured
document, by contrast, is rewritten unconditionally on every successful run
of `update_manifest`, even when it is unchanged. -/
theorem C8_write_gate (domain : List Char) (doc : List (List Char)) (m : Manifest)
    (p : List Char) (r : Manifest × Bool) (h : update_manifest m p = Except.ok r) :
    ((add_domain_to_js domain doc).2 > 0 ↔ (add_domain_to_js domain doc).1 ≠ doc) ∧
    r.2 = true := by
  constructor
  · constructor
    · intro hgt heq
      have hlen := add_len domain doc
      rw [heq] at hlen
      omega
    · intro hne
      rcases Nat.eq_zero_or_pos (add_domain_to_js domain doc).2 with h0 | h0
      · exact absurd (add_changes_zero domain doc h0) hne
      · exact h0
  · unfold update_manifest at h
    split at h
    · simp at h
    · split at h
      · simp at h
      · simp only [Except.ok.injEq] at h
        rw [← h]

/-- C8 (counterexample): a structured document already containing the pattern
everywhere is left unchanged by `update_manifest`, yet the write still
happens (the returned write flag is `true`), refuting "unchanged Documents
are not rewritten" for the structured document. -/
theorem C8_counterexample :
    update_manifest ⟨some [exCanvasPat], some [⟨some [exCanvasPat]⟩]⟩ exCanvasPat =
      Except.ok (⟨some [exCanvasPat], some [⟨some [exCanvasPat]⟩]⟩, true) := rfl

/-- Witness for C8 at a one-line document and the unchanged manifest. -/
theorem C8_witness :
    ((add_domain_to_js exDomain [exMidLine]).2 > 0 ↔
      (add_domain_to_js exDomain [exMidLine]).1 ≠ [exMidLine]) ∧
    ((⟨some [exCanvasPat], some [⟨some [exCanvasPat]⟩]⟩, true) : Manifest × Bool).2 = true :=
  C8_write_gate exDomain [exMidLine] ⟨some [exCanvasPat], some [⟨some [exCanvasPat]⟩]⟩
    exCanvasPat (⟨some [exCanvasPat], some [⟨some [exCanvasPat]⟩]⟩, true) rfl

/-- C9: the orchestrator's already-present check is a plain substring search
over the raw manifest text: with only `canvas.asu.edu` registered (it is not
an element of any manifest list, nor is the pattern derived from it), adding
`asu.edu` exits with code 2 and patches nothing, for every `parse`/`ser`. -/
theorem C9_substring_gate (parse : List Char → Option Manifest)
    (ser : Manifest → List Char) :
    main_run parse ser [("p").toList, ("d").toList, ("asu.edu").toList] exFs9 =
      (2, exFs9) ∧
    ("asu.edu").toList ∉ [exCanvasPat] ∧
    mkPattern (("asu.edu").toList) ∉ [exCanvasPat] ∧
    exMan9.host_permissions = some [exCanvasPat] ∧
    exMan9.content_scripts = some [⟨some [exCanvasPat]⟩] := by
  refine ⟨?_, by decide, by decide, rfl, rfl⟩
  exact main_run_exit2 parse ser _ _ _ _ _ _ _ (by decide)

/-- Witness for C9 with concrete `parse` and `ser`. -/
theorem C9_witness :
    main_run (fun _ => none) (fun _ => [])
        [("p").toList, ("d").toList, ("asu.edu").toList] exFs9 = (2, exFs9) :=
  (C9_substring_gate (fun _ => none) (fun _ => [])).1

/-- C10: the Chain Patcher's output is exactly the in-order concatenation of
per-line segments — `[l]` for every unmatched or skipped line, the two
replacement lines for every rewritten terminal — so every retained input line
appears byte-for-byte in the output with relative order preserved. -/
theorem C10_only_local_rewrites (domain : List Char) (doc : List (List Char)) :
    (add_domain_to_js domain doc).1 = concatSegs domain doc ∧
    (doc.filter (untouchedB domain)).Sublist (add_domain_to_js domain doc).1 :=
  ⟨add_eq_concatSegs domain doc, filter_sublist_add domain doc⟩

/-- Witness for C10 on a three-line document. -/
theorem C10_witness :
    (add_domain_to_js exDomain [exIfLine, exTermLine, exMidLine]).1 =
      concatSegs exDomain [exIfLine, exTermLine, exMidLine] ∧
    (([exIfLine, exTermLine, exMidLine].filter (untouchedB exDomain)).Sublist
      (add_domain_to_js exDomain [exIfLine, exTermLine, exMidLine]).1) :=
  C10_only_local_rewrites exDomain [exIfLine, exTermLine, exMidLine]

end Canvascope
